import Mathlib

/-!
Verification of the Sp-API repository's natural-language specification
against a shallow Lean embedding of its Python source.

Embedded modules:
* `scripts/utils/api_client.py` — `RetryStrategy`, `SPAPIClient.request`,
  `RateLimitHandler.record_request`, `SPAPIClient.__init__`,
  `RetryStrategy.get_delay`
* `scripts/utils/pull_tracker.py` — `PullTracker.get_incomplete_marketplaces`,
  `PullTracker.finish_pull`
* `scripts/detect_gaps.py` — `detect_gaps`
* `scripts/utils/reports.py` / `scripts/utils/sqp_reports.py` —
  `poll_report_status`
* `scripts/utils/sqp_reports.py` — `batch_asins`

Machine floats in the source are modelled as `ℚ`, Python ints as `Nat`/`Int`,
Python `None`-able values as `Option`.
-/

namespace SpAPI

/-! ## api_client.py: retry loop model

An attempt of `SPAPIClient.request` either yields an HTTP response with some
status code, or raises one of the transient connection-level exceptions
(`ConnectionError`, `Timeout`, `ChunkedEncodingError`) — the only exception
class caught by the retry loop. -/

inductive AttemptOutcome where
  | response (status : Nat)
  | connError
  deriving DecidableEq

/-- `RetryStrategy.TRANSIENT_STATUS_CODES = {429, 500, 502, 503, 504}`. -/
def TRANSIENT_STATUS_CODES : List Nat := [429, 500, 502, 503, 504]

/-- `RetryStrategy.should_retry(exception, response, attempt)`:
returns `False` when `attempt >= max_retries`; `True` on a transient
exception; `True` on a response whose status is in
`TRANSIENT_STATUS_CODES`; otherwise `False`.  The loop only ever passes a
transient exception in the exception slot, so that slot is a `Bool`. -/
def should_retry (max_retries : Nat) (excTransient : Bool)
    (resp : Option Nat) (attempt : Nat) : Bool :=
  if max_retries ≤ attempt then false
  else if excTransient then true
  else match resp with
    | some s => decide (s ∈ TRANSIENT_STATUS_CODES)
    | none => false

/-- Outcome of `SPAPIClient.request`: the returned response's status, or the
typed error raised. -/
inductive RequestResult where
  | success (status : Nat)
  | SPAPIRateLimitError
  | SPAPITransientError
  | SPAPIFatalError
  deriving DecidableEq

/-- Observable events of the retry loop, for the temporal claim about
`RateLimitHandler.record_request`.  `attemptEv got` is the
`session.request(...)` call, `got = true` iff it returned a response rather
than raising; `recordEv` is `rate_limiter.record_request(api_type)`. -/
inductive Ev where
  | attemptEv (gotResponse : Bool)
  | recordEv
  deriving DecidableEq

/-- The `while True` loop of `SPAPIClient.request`, driven by the list of
outcomes the transport produces for successive attempts.  Returns the event
trace together with the result and the total number of attempts made;
`none` when the outcome list is exhausted before the loop terminates.

Mirrors `api_client.py` lines 289–371: on a response, `record_request` runs
first, then status `< 400` returns, a retryable status loops with
`attempt += 1`, and otherwise the typed error is chosen by
`status == 429` / `status >= 500` / other; on a transient exception the
loop either retries or raises `SPAPITransientError`, with no
`record_request`. -/
def requestLoop (max_retries : Nat) :
    Nat → List AttemptOutcome → List Ev × Option (RequestResult × Nat)
  | _, [] => ([], none)
  | attempt, .response s :: rest =>
    let evs := [Ev.attemptEv true, Ev.recordEv]
    if s < 400 then (evs, some (.success s, attempt + 1))
    else if should_retry max_retries false (some s) attempt then
      let r := requestLoop max_retries (attempt + 1) rest
      (evs ++ r.1, r.2)
    else if s = 429 then (evs, some (.SPAPIRateLimitError, attempt + 1))
    else if 500 ≤ s then (evs, some (.SPAPITransientError, attempt + 1))
    else (evs, some (.SPAPIFatalError, attempt + 1))
  | attempt, .connError :: rest =>
    let evs := [Ev.attemptEv false]
    if should_retry max_retries true none attempt then
      let r := requestLoop max_retries (attempt + 1) rest
      (evs ++ r.1, r.2)
    else (evs, some (.SPAPITransientError, attempt + 1))

/-- `SPAPIClient.request`: the loop started at attempt 0. -/
def request (max_retries : Nat) (outcomes : List AttemptOutcome) :
    List Ev × Option (RequestResult × Nat) :=
  requestLoop max_retries 0 outcomes

/-- An attempt outcome that the retry strategy classifies as transient:
a connection-level exception, or a response whose status is in
`TRANSIENT_STATUS_CODES`. -/
def transientFail : AttemptOutcome → Bool
  | .connError => true
  | .response s => decide (s ∈ TRANSIENT_STATUS_CODES)

/-- The typed error raised when every attempt fails with transient
failure `e`: `SPAPIRateLimitError` for HTTP 429, `SPAPITransientError`
for an HTTP 5xx or a connection-level error. -/
def exhaustedError : AttemptOutcome → RequestResult
  | .connError => .SPAPITransientError
  | .response s => if s = 429 then .SPAPIRateLimitError else .SPAPITransientError

lemma transient_status_ge_400 {s : Nat} (h : s ∈ TRANSIENT_STATUS_CODES) :
    ¬ s < 400 := by
  simp [TRANSIENT_STATUS_CODES] at h
  rcases h with h | h | h | h | h <;> omega

/-- Skipping a prefix of transient failures: as long as the attempt budget
is not exhausted, the loop's result after transient failures is the loop's
result on the remaining outcomes with the attempt counter advanced. -/
lemma requestLoop_skip_transient (max_retries : Nat) :
    ∀ (fails : List AttemptOutcome) (a : Nat) (rest : List AttemptOutcome),
      a + fails.length ≤ max_retries →
      (∀ f ∈ fails, transientFail f = true) →
      (requestLoop max_retries a (fails ++ rest)).2 =
        (requestLoop max_retries (a + fails.length) rest).2 := by
  intro fails
  induction fails with
  | nil => intro a rest _ _; simp
  | cons f fs ih =>
    intro a rest hle hall
    have hf : transientFail f = true := hall f (List.mem_cons_self f fs)
    have hfs : ∀ g ∈ fs, transientFail g = true := by
      intro g hg; exact hall g (List.mem_cons_of_mem f hg)
    have ha : ¬ max_retries ≤ a := by simp at hle ⊢; omega
    cases f with
    | connError =>
      have hsr : should_retry max_retries true none a = true := by
        simp [should_retry, ha]
      have hih := ih (a + 1) rest (by simp at hle ⊢; omega) hfs
      simp only [List.cons_append, List.append_eq] at hih ⊢
      simp only [requestLoop, hsr, if_true]
      rw [hih]
      have hlen : a + 1 + fs.length = a + (AttemptOutcome.connError :: fs).length := by
        simp only [List.length_cons]
        omega
      exact congrArg (fun n => (requestLoop max_retries n rest).2) hlen
    | response s =>
      have hs : s ∈ TRANSIENT_STATUS_CODES := by
        simpa [transientFail] using hf
      have hlt : ¬ s < 400 := transient_status_ge_400 hs
      have hsr : should_retry max_retries false (some s) a = true := by
        simp [should_retry, ha, hs]
      have hih := ih (a + 1) rest (by simp at hle ⊢; omega) hfs
      simp only [List.cons_append, List.append_eq] at hih ⊢
      simp only [requestLoop, hlt, if_false, hsr, if_true]
      rw [hih]
      have hlen : a + 1 + fs.length = a + (AttemptOutcome.response s :: fs).length := by
        simp only [List.length_cons]
        omega
      exact congrArg (fun n => (requestLoop max_retries n rest).2) hlen

/-- At an exhausted attempt budget, a transient failure raises its typed
error, counting one final attempt. -/
lemma requestLoop_exhausted (max_retries : Nat) (e : AttemptOutcome)
    (he : transientFail e = true) (rest : List AttemptOutcome) :
    (requestLoop max_retries max_retries (e :: rest)).2 =
      some (exhaustedError e, max_retries + 1) := by
  cases e with
  | connError =>
    simp [requestLoop, should_retry, exhaustedError]
  | response s =>
    have hs : s ∈ TRANSIENT_STATUS_CODES := by
      simpa [transientFail] using he
    have hlt : ¬ s < 400 := transient_status_ge_400 hs
    by_cases h429 : s = 429
    · subst h429
      simp [requestLoop, should_retry, exhaustedError]
    · have h500 : 500 ≤ s := by
        simp [TRANSIENT_STATUS_CODES] at hs
        rcases hs with h | h | h | h | h <;> omega
      simp [requestLoop, should_retry, hlt, h429, h500, exhaustedError]

/-- **C1.** For `SPAPIClient.request` with `max_retries`: if the first `k`
attempts (`k ≤ max_retries`) each fail transiently (connection-level error /
timeout, or HTTP status in {429, 500, 502, 503, 504}) and attempt `k + 1`
returns a status `< 400`, the call returns that response after `k + 1`
attempts; and if every attempt fails with the same transient error `e`, the
call raises a typed error after exactly `max_retries + 1` attempts —
`SPAPIRateLimitError` when `e` is HTTP 429, `SPAPITransientError` when it is
an HTTP 5xx or a connection-level error. -/
theorem request_retry_ceiling (max_retries : Nat) (fails : List AttemptOutcome)
    (s : Nat) (e : AttemptOutcome)
    (hk : fails.length ≤ max_retries)
    (hall : ∀ f ∈ fails, transientFail f = true)
    (hs : s < 400)
    (he : transientFail e = true) :
    (request max_retries (fails ++ [.response s])).2 =
        some (.success s, fails.length + 1) ∧
    (request max_retries (List.replicate (max_retries + 1) e)).2 =
        some (exhaustedError e, max_retries + 1) := by
  constructor
  · have hskip := requestLoop_skip_transient max_retries fails 0
      [AttemptOutcome.response s] (by omega) hall
    rw [request, hskip]
    simp [requestLoop, hs]
  · have hrepl : List.replicate (max_retries + 1) e =
        List.replicate max_retries e ++ [e] := by
      rw [← List.replicate_succ']
    have hallr : ∀ f ∈ List.replicate max_retries e, transientFail f = true := by
      intro f hf
      rw [List.eq_of_mem_replicate hf]
      exact he
    have hskip := requestLoop_skip_transient max_retries
      (List.replicate max_retries e) 0 [e]
      (by simp) hallr
    rw [request, hrepl, hskip]
    simp only [List.length_replicate, Nat.zero_add]
    exact requestLoop_exhausted max_retries e he []

/-- Witness for C1 at `max_retries = 2`, two transient failures
(a 503 and a connection error) then a 200. -/
theorem request_retry_ceiling_witness :
    (request 2 ([.response 503, .connError] ++ [.response 200])).2 =
        some (.success 200, 3) ∧
    (request 2 (List.replicate 3 (.response 429))).2 =
        some (exhaustedError (.response 429), 3) :=
  request_retry_ceiling 2 [.response 503, .connError] 200 (.response 429)
    (by decide) (by decide) (by decide) (by decide)

/-- **C2.** An attempt returning an HTTP 4xx status other than 429 makes
`SPAPIClient.request` raise `SPAPIFatalError` after exactly one attempt,
with zero retries, whatever the transport would have produced later. -/
theorem request_fatal_short_circuit (max_retries : Nat) (s : Nat)
    (rest : List AttemptOutcome)
    (h400 : 400 ≤ s) (h500 : s < 500) (h429 : s ≠ 429) :
    (request max_retries (.response s :: rest)).2 =
      some (.SPAPIFatalError, 1) := by
  have hmem : s ∉ TRANSIENT_STATUS_CODES := by
    simp [TRANSIENT_STATUS_CODES]
    omega
  have hlt : ¬ s < 400 := by omega
  have hge : ¬ 500 ≤ s := by omega
  simp [request, requestLoop, should_retry, hlt, hmem, h429, hge]

/-- Witness for C2: a single 404 with retries still available. -/
theorem request_fatal_short_circuit_witness :
    (request 5 (.response 404 :: [.response 200])).2 =
      some (.SPAPIFatalError, 1) :=
  request_fatal_short_circuit 5 404 [.response 200]
    (by decide) (by decide) (by decide)

/-! ## C5: `record_request` stamping, as a trace property -/

/-- `allAttemptsRecorded pending evs` scans the request trace and checks
that after every `session.request` attempt — response or exception — a
`record_request` event occurs before the next attempt or the end of the
trace.  `pending = true` means the previous attempt has not been followed
by a `record_request` yet. -/
def allAttemptsRecorded : Bool → List Ev → Bool
  | pending, [] => !pending
  | pending, Ev.attemptEv _ :: rest => !pending && allAttemptsRecorded true rest
  | _, Ev.recordEv :: rest => allAttemptsRecorded false rest

/-- Like `allAttemptsRecorded`, but only attempts in which the HTTP call
returned a response (of any status) must be followed by a
`record_request`. -/
def responseAttemptsRecorded : Bool → List Ev → Bool
  | pending, [] => !pending
  | pending, Ev.attemptEv got :: rest => !pending && responseAttemptsRecorded got rest
  | _, Ev.recordEv :: rest => responseAttemptsRecorded false rest

/-- **C5 counterexample.** In the run where attempt 1 raises a
connection-level transient exception and attempt 2 succeeds with HTTP 200
(`max_retries = 5`), the trace is `attempt, attempt, record`: the first
attempt is followed by the next attempt with no `record_request` in
between, refuting the claim that the timestamp is stamped after every
attempt.  The run itself is a normal successful call. -/
theorem record_request_not_after_exception :
    (request 5 [.connError, .response 200]).1 =
      [Ev.attemptEv false, Ev.attemptEv true, Ev.recordEv] ∧
    (request 5 [.connError, .response 200]).2 = some (.success 200, 2) ∧
    allAttemptsRecorded false (request 5 [.connError, .response 200]).1 = false := by
  decide

/-- **C5 amended.** In every run of `SPAPIClient.request`, after every
attempt in which the HTTP call returns a response (whatever its status),
`record_request` is invoked before the next attempt begins or the call
terminates; attempts that raise a connection-level transient exception do
not invoke it. -/
theorem record_request_after_every_response (max_retries : Nat)
    (outcomes : List AttemptOutcome) :
    responseAttemptsRecorded false (request max_retries outcomes).1 = true := by
  rw [request]
  suffices h : ∀ (a : Nat),
      responseAttemptsRecorded false (requestLoop max_retries a outcomes).1 = true from
    h 0
  induction outcomes with
  | nil => intro a; simp [requestLoop, responseAttemptsRecorded]
  | cons o rest ih =>
    intro a
    cases o with
    | response s =>
      by_cases h1 : s < 400
      · simp [requestLoop, h1, responseAttemptsRecorded]
      · by_cases h2 : should_retry max_retries false (some s) a = true
        · simp only [requestLoop, h1, if_false, h2, if_true]
          simpa [responseAttemptsRecorded] using ih (a + 1)
        · by_cases h3 : s = 429
          · subst h3
            simp [requestLoop, h1, h2, responseAttemptsRecorded]
          · by_cases h4 : 500 ≤ s
            · simp [requestLoop, h1, h2, h3, h4, responseAttemptsRecorded]
            · simp [requestLoop, h1, h2, h3, h4, responseAttemptsRecorded]
    | connError =>
      by_cases h2 : should_retry max_retries true none a = true
      · simp only [requestLoop, h2, if_true]
        simpa [responseAttemptsRecorded] using ih (a + 1)
      · simp [requestLoop, h2, responseAttemptsRecorded]

/-! ## C6: `RetryStrategy.get_delay`

`get_delay(attempt, response)` returns `float(Retry-After)` when that header
parses; otherwise `delay = min(base_delay * 2**attempt, max_delay)` plus
`random.uniform(0, delay * 0.1)`.  Floats are modelled as `ℚ` and the
uniform draw as `u ∈ [0, 1]` scaled by `delay * (1/10)`. -/

/-- The deterministic backoff `min(base_delay * 2**attempt, max_delay)`. -/
def backoffDelay (base_delay max_delay : ℚ) (attempt : Nat) : ℚ :=
  min (base_delay * 2 ^ attempt) max_delay

/-- `RetryStrategy.get_delay`: `retryAfter` is the parsed `Retry-After`
header when present and parseable, `u ∈ [0, 1]` the jitter draw. -/
def get_delay (base_delay max_delay : ℚ) (attempt : Nat)
    (retryAfter : Option ℚ) (u : ℚ) : ℚ :=
  match retryAfter with
  | some r => r
  | none =>
    backoffDelay base_delay max_delay attempt +
      u * (backoffDelay base_delay max_delay attempt * (1 / 10))

/-- **C6 counterexample.** With the default tuning `base_delay = 1`,
`max_delay = 60`, at attempt `n = 7` and jitter draw 0, the delay is 60,
which is not within the claimed interval
`[base*2^7, base*2^7*1.1] = [128, 140.8]`: the cap at `max_delay` pulls
the delay below `base*2^n`. -/
theorem get_delay_outside_claimed_interval :
    ¬ ((1 : ℚ) * 2 ^ 7 ≤ get_delay 1 60 7 none 0 ∧
       get_delay 1 60 7 none 0 ≤ 1 * 2 ^ 7 * (11 / 10)) := by
  have h : get_delay 1 60 7 none 0 = 60 := by
    norm_num [get_delay, backoffDelay, min_def]
  rw [h]
  norm_num

/-- **C6 amended.** Let `d n = min(base*2^n, max_delay)`.  For every
attempt `n` and jitter draws `u, u' ∈ [0, 1]` (with nonnegative tuning
values), `get_delay` absent a `Retry-After` override always lies within
`[d n, d n * 1.1]`; the deterministic part `d n` is non-decreasing in `n`
(it rises up to `max_delay` and stays there); and while the backoff is
below the cap (`base*2^(n+1) ≤ max_delay`), every draw at attempt `n + 1`
dominates every draw at attempt `n`. -/
theorem get_delay_backoff_bounds (base_delay max_delay : ℚ) (n : Nat)
    (u u' : ℚ)
    (hb : 0 ≤ base_delay) (hm : 0 ≤ max_delay)
    (hu0 : 0 ≤ u) (hu1 : u ≤ 1) (hv0 : 0 ≤ u') (hv1 : u' ≤ 1) :
    (backoffDelay base_delay max_delay n ≤ get_delay base_delay max_delay n none u ∧
     get_delay base_delay max_delay n none u ≤
       backoffDelay base_delay max_delay n * (11 / 10)) ∧
    backoffDelay base_delay max_delay n ≤ backoffDelay base_delay max_delay (n + 1) ∧
    (base_delay * 2 ^ (n + 1) ≤ max_delay →
      get_delay base_delay max_delay n none u ≤
        get_delay base_delay max_delay (n + 1) none u') := by
  have hpow : (0 : ℚ) ≤ base_delay * 2 ^ n := by positivity
  have hd0 : 0 ≤ backoffDelay base_delay max_delay n :=
    le_min hpow hm
  have hjit : 0 ≤ u * (backoffDelay base_delay max_delay n * (1 / 10)) := by
    have := hd0
    positivity
  have hlow : backoffDelay base_delay max_delay n ≤
      get_delay base_delay max_delay n none u := by
    simp only [get_delay]
    linarith
  have hhigh : get_delay base_delay max_delay n none u ≤
      backoffDelay base_delay max_delay n * (11 / 10) := by
    simp only [get_delay]
    have : u * (backoffDelay base_delay max_delay n * (1 / 10)) ≤
        backoffDelay base_delay max_delay n * (1 / 10) := by
      have h10 : 0 ≤ backoffDelay base_delay max_delay n * (1 / 10) := by
        positivity
      nlinarith
    linarith
  have hmono : backoffDelay base_delay max_delay n ≤
      backoffDelay base_delay max_delay (n + 1) := by
    apply min_le_min _ le_rfl
    have : (base_delay * 2 ^ n) * 1 ≤ (base_delay * 2 ^ n) * 2 := by
      nlinarith
    calc base_delay * 2 ^ n = base_delay * 2 ^ n * 1 := by ring
      _ ≤ base_delay * 2 ^ n * 2 := this
      _ = base_delay * 2 ^ (n + 1) := by ring
  refine ⟨⟨hlow, hhigh⟩, hmono, fun hcap => ?_⟩
  have hdn1 : backoffDelay base_delay max_delay (n + 1) = base_delay * 2 ^ (n + 1) :=
    min_eq_left hcap
  have hdn_le : backoffDelay base_delay max_delay n ≤ base_delay * 2 ^ n :=
    min_le_left _ _
  have hstep : backoffDelay base_delay max_delay n * (11 / 10) ≤
      base_delay * 2 ^ (n + 1) := by
    have h1 : backoffDelay base_delay max_delay n * (11 / 10) ≤
        (base_delay * 2 ^ n) * (11 / 10) := by nlinarith
    have h2 : (base_delay * 2 ^ n) * (11 / 10) ≤ (base_delay * 2 ^ n) * 2 := by
      nlinarith
    calc backoffDelay base_delay max_delay n * (11 / 10)
        ≤ (base_delay * 2 ^ n) * (11 / 10) := h1
      _ ≤ (base_delay * 2 ^ n) * 2 := h2
      _ = base_delay * 2 ^ (n + 1) := by ring
  have hlow' : backoffDelay base_delay max_delay (n + 1) ≤
      get_delay base_delay max_delay (n + 1) none u' := by
    have hpow' : (0 : ℚ) ≤ base_delay * 2 ^ (n + 1) := by positivity
    have hd0' : 0 ≤ backoffDelay base_delay max_delay (n + 1) :=
      le_min hpow' hm
    have : 0 ≤ u' * (backoffDelay base_delay max_delay (n + 1) * (1 / 10)) := by
      positivity
    simp only [get_delay]
    linarith
  calc get_delay base_delay max_delay n none u
      ≤ backoffDelay base_delay max_delay n * (11 / 10) := hhigh
    _ ≤ base_delay * 2 ^ (n + 1) := hstep
    _ = backoffDelay base_delay max_delay (n + 1) := hdn1.symm
    _ ≤ get_delay base_delay max_delay (n + 1) none u' := hlow'

/-- Witness for the amended C6 at `base = 1`, `max_delay = 60`, `n = 2`,
draws `u = 1` and the next attempt's draw `u' = 0`. -/
theorem get_delay_backoff_bounds_witness :
    (backoffDelay 1 60 2 ≤ get_delay 1 60 2 none 1 ∧
     get_delay 1 60 2 none 1 ≤ backoffDelay 1 60 2 * (11 / 10)) ∧
    backoffDelay 1 60 2 ≤ backoffDelay 1 60 3 ∧
    ((1 : ℚ) * 2 ^ 3 ≤ 60 →
      get_delay 1 60 2 none 1 ≤ get_delay 1 60 3 none 0) :=
  get_delay_backoff_bounds 1 60 2 1 0
    (by norm_num) (by norm_num) (by norm_num) (by norm_num)
    (by norm_num) (by norm_num)

/-! ## C9: `SPAPIClient.__init__` tuning-knob defaults

The constructor binds each knob with Python `or`:
`self.max_retries = max_retries or int(os.environ.get(...))`, and likewise
for `base_delay`, `max_delay`, `timeout`.  `None` and `0`/`0.0` are both
falsy, so both fall back to the environment-derived default. -/

/-- Python `x or default` for an optional int argument: `None` and `0` are
falsy. -/
def pyOrNat (x : Option Nat) (dflt : Nat) : Nat :=
  match x with
  | none => dflt
  | some v => if v = 0 then dflt else v

/-- Python `x or default` for an optional float argument: `None` and `0.0`
are falsy. -/
def pyOrQ (x : Option ℚ) (dflt : ℚ) : ℚ :=
  match x with
  | none => dflt
  | some v => if v = 0 then dflt else v

/-- The environment-derived defaults (`SP_API_MAX_RETRIES` etc., with the
literal fallbacks 5, 1.0, 60.0, 30 when the variable is unset). -/
structure EnvDefaults where
  max_retries : Nat
  base_delay : ℚ
  max_delay : ℚ
  timeout : Nat

/-- The retry/timeout configuration a constructed `SPAPIClient` uses. -/
structure ClientConfig where
  max_retries : Nat
  base_delay : ℚ
  max_delay : ℚ
  timeout : Nat
  deriving DecidableEq

/-- `SPAPIClient.__init__`: each knob is `argument or env_default`. -/
def SPAPIClient_init (env : EnvDefaults)
    (max_retries : Option Nat) (base_delay : Option ℚ)
    (max_delay : Option ℚ) (timeout : Option Nat) : ClientConfig :=
  { max_retries := pyOrNat max_retries env.max_retries
    base_delay := pyOrQ base_delay env.base_delay
    max_delay := pyOrQ max_delay env.max_delay
    timeout := pyOrNat timeout env.timeout }

/-- **C9 counterexample.** With environment default `max_retries = 5`, a
client constructed with the explicit argument `max_retries = 0` gets
`max_retries = 5`, not 0: Python `or` treats the explicit 0 as falsy and
falls back to the environment-derived default. -/
theorem init_zero_falls_back_to_default :
    (SPAPIClient_init ⟨5, 1, 60, 30⟩ (some 0) none none none).max_retries ≠ 0 ∧
    (SPAPIClient_init ⟨5, 1, 60, 30⟩ (some 0) none none none).max_retries = 5 := by
  decide

/-- **C9 amended.** Every explicitly supplied *nonzero* constructor value of
`max_retries`, `base_delay`, `max_delay`, or `timeout` is used exactly; an
omitted argument — and likewise an explicit zero, which Python `or` treats
as falsy — falls back to the environment-derived default. -/
theorem init_overrides_used_exactly (env : EnvDefaults)
    (r t : Nat) (b m : ℚ)
    (hr : r ≠ 0) (hb : b ≠ 0) (hm : m ≠ 0) (ht : t ≠ 0) :
    (SPAPIClient_init env (some r) (some b) (some m) (some t)
        = ⟨r, b, m, t⟩) ∧
    (SPAPIClient_init env none none none none
        = ⟨env.max_retries, env.base_delay, env.max_delay, env.timeout⟩) ∧
    (SPAPIClient_init env (some 0) (some 0) (some 0) (some 0)
        = ⟨env.max_retries, env.base_delay, env.max_delay, env.timeout⟩) := by
  refine ⟨?_, ?_, ?_⟩ <;>
    simp [SPAPIClient_init, pyOrNat, pyOrQ, hr, hb, hm, ht]

/-- Witness for the amended C9 at a concrete environment and arguments. -/
theorem init_overrides_used_exactly_witness :
    (SPAPIClient_init ⟨5, 1, 60, 30⟩ (some 3) (some 2) (some 90) (some 10)
        = ⟨3, 2, 90, 10⟩) ∧
    (SPAPIClient_init ⟨5, 1, 60, 30⟩ none none none none
        = ⟨5, 1, 60, 30⟩) ∧
    (SPAPIClient_init ⟨5, 1, 60, 30⟩ (some 0) (some 0) (some 0) (some 0)
        = ⟨5, 1, 60, 30⟩) :=
  init_overrides_used_exactly ⟨5, 1, 60, 30⟩ 3 10 2 90
    (by norm_num) (by norm_num) (by norm_num) (by norm_num)

/-! ## pull_tracker.py: `PullTracker`

`marketplace_status` maps a marketplace code to a dict whose `"status"`
field is one of `"in_progress"`, `"completed"`, `"failed"`.  It is modelled
as an association list from code to status string;
`marketplace_status.get(mp, {}).get("status")` is `List.lookup`. -/

/-- `PullTracker.get_incomplete_marketplaces(all_marketplaces)`: the
sub-list of `all_marketplaces` whose recorded status is not
`"completed"` (a marketplace with no record has status `None`, which also
counts as incomplete), in input order. -/
def get_incomplete_marketplaces (marketplace_status : List (String × String))
    (all_marketplaces : List String) : List String :=
  all_marketplaces.filter
    (fun mp => marketplace_status.lookup mp ≠ some "completed")

/-- **C3.** If the tracker's status map records exactly the strict subset
`S` of `all_marketplaces` as `"completed"` (as after
`start_pull(resume=True)` adopted a prior run's persisted map), then
`get_incomplete_marketplaces` returns exactly `all_marketplaces` minus `S`,
in input order; in particular no completed unit is ever returned for
reprocessing. -/
theorem get_incomplete_complement (marketplace_status : List (String × String))
    (all_marketplaces : List String) (S : List String)
    (hexact : ∀ mp, marketplace_status.lookup mp = some "completed" ↔ mp ∈ S)
    (hsub : ∀ mp ∈ S, mp ∈ all_marketplaces)
    (hstrict : ∃ mp ∈ all_marketplaces, mp ∉ S) :
    get_incomplete_marketplaces marketplace_status all_marketplaces =
      all_marketplaces.filter (fun mp => mp ∉ S) ∧
    ∀ mp ∈ get_incomplete_marketplaces marketplace_status all_marketplaces,
      mp ∉ S := by
  have hfe : get_incomplete_marketplaces marketplace_status all_marketplaces =
      all_marketplaces.filter (fun mp => mp ∉ S) := by
    unfold get_incomplete_marketplaces
    apply List.filter_congr
    intro mp _
    rw [decide_eq_decide]
    exact not_congr (hexact mp)
  refine ⟨hfe, ?_⟩
  intro mp hmp
  rw [hfe] at hmp
  have := List.of_mem_filter hmp
  simpa using this

/-- Witness for C3: history completed `USA` out of `[USA, UK, DE]`. -/
theorem get_incomplete_complement_witness :
    get_incomplete_marketplaces [("USA", "completed")] ["USA", "UK", "DE"] =
      (["USA", "UK", "DE"].filter (fun mp => mp ∉ (["USA"] : List String))) ∧
    ∀ mp ∈ get_incomplete_marketplaces [("USA", "completed")] ["USA", "UK", "DE"],
      mp ∉ (["USA"] : List String) :=
  get_incomplete_complement [("USA", "completed")] ["USA", "UK", "DE"] ["USA"]
    (by
      intro mp
      by_cases hmp : mp = "USA"
      · subst hmp
        simp [List.lookup]
      · have hbeq : (mp == "USA") = false := by
          simpa using hmp
        simp [List.lookup, hbeq, hmp])
    (by decide) (by decide)

/-- `PullTracker.finish_pull()` final-status computation, as a function of
the list of per-marketplace status strings
(`self.marketplace_status.values()`):
`completed` when `completed_count == total and total > 0`, else `partial`
when `completed_count > 0`, else `failed`. -/
def finish_pull_status (statuses : List String) : String :=
  let completed_count := statuses.count "completed"
  let total := statuses.length
  if completed_count = total ∧ 0 < total then "completed"
  else if 0 < completed_count then "partial"
  else "failed"

/-- **C4 counterexample.** For the empty status map, every unit status is
vacuously `"completed"`, yet `finish_pull` returns `"failed"`, not
`"completed"`: the code requires `total > 0` for the `"completed"`
outcome, so the claim's vacuous edge case fails. -/
theorem finish_pull_empty_is_failed :
    (∀ s ∈ ([] : List String), s = "completed") ∧
    finish_pull_status [] = "failed" ∧
    finish_pull_status [] ≠ "completed" := by
  constructor
  · intro s hs
    simp at hs
  · constructor
    · rfl
    · simp [finish_pull_status]

/-- **C4 amended.** `finish_pull` returns `"completed"` iff all unit
statuses are `"completed"` *and there is at least one unit*; `"failed"` iff
no unit status is `"completed"` (which includes the empty status map); and
`"partial"` iff some but not all unit statuses are `"completed"`. -/
theorem finish_pull_classification (statuses : List String) :
    (finish_pull_status statuses = "completed" ↔
      (∀ s ∈ statuses, s = "completed") ∧ statuses ≠ []) ∧
    (finish_pull_status statuses = "failed" ↔
      ∀ s ∈ statuses, s ≠ "completed") ∧
    (finish_pull_status statuses = "partial" ↔
      ("completed" ∈ statuses ∧ ¬ ∀ s ∈ statuses, s = "completed")) := by
  have hcl : statuses.count "completed" = statuses.length ↔
      ∀ s ∈ statuses, s = "completed" := by
    rw [List.count_eq_length]
    constructor
    · intro h s hs; exact (h s hs).symm
    · intro h s hs; exact (h s hs).symm
  have hpos : 0 < statuses.count "completed" ↔ "completed" ∈ statuses :=
    List.count_pos_iff
  have hlenpos : 0 < statuses.length ↔ statuses ≠ [] :=
    List.length_pos_iff_ne_nil
  have hmem_of_all : (∀ s ∈ statuses, s = "completed") → statuses ≠ [] →
      "completed" ∈ statuses := by
    intro h1 h2
    cases statuses with
    | nil => exact absurd rfl h2
    | cons a l =>
      have ha := h1 a (List.mem_cons_self a l)
      rw [← ha]
      exact List.mem_cons_self a l
  by_cases hall : statuses.count "completed" = statuses.length ∧
      0 < statuses.length
  · have h1 : ∀ s ∈ statuses, s = "completed" := hcl.mp hall.1
    have h2 : statuses ≠ [] := hlenpos.mp hall.2
    have hne : "completed" ∈ statuses := hmem_of_all h1 h2
    simp only [finish_pull_status, if_pos hall]
    exact ⟨iff_of_true (by simp) ⟨h1, h2⟩,
      iff_of_false (by simp) (fun h => (h "completed" hne) rfl),
      iff_of_false (by simp) (fun h => h.2 h1)⟩
  · simp only [finish_pull_status, if_neg hall]
    by_cases hsome : 0 < statuses.count "completed"
    · have hmem : "completed" ∈ statuses := hpos.mp hsome
      have hnotall : ¬ ∀ s ∈ statuses, s = "completed" := by
        intro h
        have hne : statuses ≠ [] := by
          intro hnil; rw [hnil] at hmem; simp at hmem
        exact hall ⟨hcl.mpr h, hlenpos.mpr hne⟩
      simp only [if_pos hsome]
      exact ⟨iff_of_false (by simp) (fun h => hnotall h.1),
        iff_of_false (by simp) (fun h => (h "completed" hmem) rfl),
        iff_of_true (by simp) ⟨hmem, hnotall⟩⟩
    · have hnomem : "completed" ∉ statuses := by
        intro h; exact hsome (hpos.mpr h)
      simp only [if_neg hsome]
      exact ⟨iff_of_false (by simp)
          (fun h => hnomem (hmem_of_all h.1 h.2)),
        iff_of_true (by simp) (fun s hs hc => hnomem (hc ▸ hs)),
        iff_of_false (by simp) (fun h => hnomem h.1)⟩

/-! ## detect_gaps.py: `detect_gaps`

A persisted `sp_api_pulls` record for one marketplace, with the fields the
gap detector reads.  Dates are modelled as integer day numbers. -/

structure PullRow where
  pull_date : Int
  status : String
  asin_count : Option Int

/-- Python `(row.get("asin_count") or 0)`: `None` and `0` are falsy. -/
def pyOrZeroInt (x : Option Int) : Int :=
  match x with
  | none => 0
  | some v => if v = 0 then 0 else v

/-- The `detect_gaps` success test for one record:
`row["status"] == "completed" and (row.get("asin_count") or 0) > 0`. -/
def is_successful_pull (r : PullRow) : Bool :=
  r.status == "completed" && decide (0 < pyOrZeroInt r.asin_count)

/-- `detect_gaps(marketplace, lookback_days, end_date)`: with
`start_date = end_date - (lookback_days - 1)`, walk every date from
`start_date` to `end_date` and report those for which no persisted record
passes `is_successful_pull`.  (The code first collects the passing dates in
`successful_dates`, then filters the window against that set; the gap
dicts' metadata fields — last status, last error, last attempt — are not
modelled, only which dates are classified as gaps.) -/
def detect_gaps (rows : List PullRow) (lookback_days : Nat)
    (end_date : Int) : List Int :=
  let start_date := end_date - ((lookback_days : Int) - 1)
  ((List.range lookback_days).map (fun i : Nat => start_date + (i : Int))).filter
    (fun d => ! rows.any (fun r => r.pull_date == d && is_successful_pull r))

lemma mem_range_map_add {s d : Int} {n : Nat} :
    d ∈ (List.range n).map (fun i : Nat => s + (i : Int)) ↔ s ≤ d ∧ d < s + n := by
  rw [List.mem_map]
  constructor
  · rintro ⟨i, hi, rfl⟩
    rw [List.mem_range] at hi
    omega
  · rintro ⟨h1, h2⟩
    refine ⟨(d - s).toNat, ?_, ?_⟩
    · rw [List.mem_range]; omega
    · omega

lemma any_successful_iff (rows : List PullRow) (d : Int) :
    rows.any (fun r => r.pull_date == d && is_successful_pull r) = true ↔
      ∃ r ∈ rows, r.pull_date = d ∧ r.status = "completed" ∧
        0 < pyOrZeroInt r.asin_count := by
  rw [List.any_eq_true]
  constructor
  · rintro ⟨r, hr, hcond⟩
    simp only [is_successful_pull, Bool.and_eq_true, beq_iff_eq,
      decide_eq_true_eq] at hcond
    exact ⟨r, hr, hcond.1, hcond.2.1, hcond.2.2⟩
  · rintro ⟨r, hr, h1, h2, h3⟩
    refine ⟨r, hr, ?_⟩
    simp only [is_successful_pull, Bool.and_eq_true, beq_iff_eq,
      decide_eq_true_eq]
    exact ⟨h1, h2, h3⟩

/-- **C7.** `detect_gaps` classifies a date `d` in the lookback window
`[end_date - lookback_days + 1, end_date]` as a gap unless some persisted
record for that date has status `"completed"` AND a strictly positive
`asin_count`; in particular, a date whose only record is `"completed"`
with `asin_count` 0 (or `None`) is still a gap, and no date outside the
window is reported. -/
theorem detect_gaps_characterization (rows : List PullRow)
    (lookback_days : Nat) (end_date : Int) (d : Int) :
    d ∈ detect_gaps rows lookback_days end_date ↔
      (end_date - lookback_days + 1 ≤ d ∧ d ≤ end_date ∧
        ¬ ∃ r ∈ rows, r.pull_date = d ∧ r.status = "completed" ∧
            0 < pyOrZeroInt r.asin_count) := by
  have hstep : d ∈ detect_gaps rows lookback_days end_date ↔
      (d ∈ (List.range lookback_days).map
          (fun i : Nat => (end_date - ((lookback_days : Int) - 1)) + (i : Int)) ∧
        ¬ rows.any (fun r => r.pull_date == d && is_successful_pull r) = true) := by
    unfold detect_gaps
    rw [List.mem_filter]
    constructor
    · rintro ⟨hmem, hpred⟩
      refine ⟨hmem, ?_⟩
      rw [Bool.not_eq_true'] at hpred
      rw [hpred]
      simp
    · rintro ⟨hmem, hpred⟩
      refine ⟨hmem, ?_⟩
      rw [Bool.not_eq_true']
      exact Bool.eq_false_iff.mpr hpred
  rw [hstep, mem_range_map_add, not_congr (any_successful_iff rows d)]
  constructor
  · rintro ⟨⟨h1, h2⟩, h3⟩
    exact ⟨by omega, by omega, h3⟩
  · rintro ⟨h1, h2, h3⟩
    exact ⟨⟨by omega, by omega⟩, h3⟩

/-! ## reports.py / sqp_reports.py: `poll_report_status`

Both modules contain the same polling loop.  A poll observation is what one
`GET /reports/{id}` returns together with the wall-clock time elapsed since
`start_time` at that iteration. -/

structure PollObs where
  processingStatus : String
  reportDocumentId : String
  elapsed : ℚ

/-- How one run of `poll_report_status` ends. -/
inductive PollOutcome where
  | done (docId : String)
  | runtimeErr (status : String)
  | timeoutErr
  deriving DecidableEq

/-- The `while True` polling loop, driven by the list of successive poll
observations.  Returns the outcome together with the number of polls
issued; `none` when the observation list is exhausted first.  Mirrors
`reports.py` lines 158–190 and `sqp_reports.py` lines 434–453: `DONE`
returns the document id; `CANCELLED`/`FATAL` raises `RuntimeError`;
otherwise a timeout is raised when `elapsed > max_wait_seconds`, else the
loop sleeps and polls again. -/
def poll_report_status (max_wait_seconds : ℚ) :
    List PollObs → Option (PollOutcome × Nat)
  | [] => none
  | o :: rest =>
    if o.processingStatus = "DONE" then
      some (.done o.reportDocumentId, 1)
    else if o.processingStatus = "CANCELLED" ∨ o.processingStatus = "FATAL" then
      some (.runtimeErr o.processingStatus, 1)
    else if max_wait_seconds < o.elapsed then
      some (.timeoutErr, 1)
    else
      (poll_report_status max_wait_seconds rest).map (fun p => (p.1, p.2 + 1))

/-- A poll observation that keeps the loop going: neither terminal-success
nor terminal-failure. -/
def nonTerminal (o : PollObs) : Prop :=
  o.processingStatus ≠ "DONE" ∧ o.processingStatus ≠ "CANCELLED" ∧
    o.processingStatus ≠ "FATAL"

/-- **C8.** After any prefix of non-terminal polls within the time budget:
a poll observing `DONE` returns the report document id at once; the first
poll observing `CANCELLED` or `FATAL` raises the workflow `RuntimeError`
immediately, issuing no further polls (the poll count is the prefix length
plus one, whatever observations would follow); and a non-terminal poll
observed after `elapsed` exceeds `max_wait_seconds` raises `TimeoutError`. -/
theorem poll_report_status_behaviour (max_wait_seconds : ℚ)
    (pre : List PollObs) (o : PollObs) (rest : List PollObs)
    (hpre : ∀ p ∈ pre, nonTerminal p ∧ p.elapsed ≤ max_wait_seconds) :
    (o.processingStatus = "DONE" →
      poll_report_status max_wait_seconds (pre ++ o :: rest) =
        some (.done o.reportDocumentId, pre.length + 1)) ∧
    ((o.processingStatus = "CANCELLED" ∨ o.processingStatus = "FATAL") →
      poll_report_status max_wait_seconds (pre ++ o :: rest) =
        some (.runtimeErr o.processingStatus, pre.length + 1)) ∧
    (nonTerminal o → max_wait_seconds < o.elapsed →
      poll_report_status max_wait_seconds (pre ++ o :: rest) =
        some (.timeoutErr, pre.length + 1)) := by
  induction pre with
  | nil =>
    refine ⟨?_, ?_, ?_⟩
    · intro h
      simp [poll_report_status, h]
    · intro h
      rcases h with h | h <;> simp [poll_report_status, h]
    · rintro ⟨h1, h2, h3⟩ h4
      simp [poll_report_status, h1, h2, h3, h4]
  | cons p pre ih =>
    have hp := hpre p (List.mem_cons_self p pre)
    have hpre' : ∀ q ∈ pre, nonTerminal q ∧ q.elapsed ≤ max_wait_seconds :=
      fun q hq => hpre q (List.mem_cons_of_mem p hq)
    obtain ⟨⟨hd, hc, hf⟩, hel⟩ := hp
    have hor : ¬ (p.processingStatus = "CANCELLED" ∨
        p.processingStatus = "FATAL") := by
      rintro (h | h)
      · exact hc h
      · exact hf h
    have hnotlt : ¬ max_wait_seconds < p.elapsed := not_lt.mpr hel
    have ih' := ih hpre'
    refine ⟨?_, ?_, ?_⟩
    · intro h
      have hres := ih'.1 h
      simp [poll_report_status, hd, hor, hnotlt, hres]
    · intro h
      have hres := ih'.2.1 h
      simp [poll_report_status, hd, hor, hnotlt, hres]
    · intro h1 h2
      have hres := ih'.2.2 h1 h2
      simp [poll_report_status, hd, hor, hnotlt, hres]

/-- Witness for C8: one in-progress poll within the budget, then `DONE`. -/
theorem poll_report_status_behaviour_witness :
    poll_report_status 300
        [⟨"IN_PROGRESS", "", 5⟩, ⟨"DONE", "doc-1", 12⟩] =
      some (.done "doc-1", 2) := by
  have h := (poll_report_status_behaviour 300 [⟨"IN_PROGRESS", "", 5⟩]
      ⟨"DONE", "doc-1", 12⟩ []
      (by
        intro p hp
        simp only [List.mem_singleton] at hp
        subst hp
        refine ⟨⟨by decide, by decide, by decide⟩, by norm_num⟩)).1 rfl
  simpa using h

/-! ## sqp_reports.py: `batch_asins` -/

/-- Length of the space-joined string `" ".join(batch)`: the total length
of the elements plus one separator between each consecutive pair. -/
def joinedLen (batch : List String) : Nat :=
  (batch.map String.length).sum + (batch.length - 1)

/-- The accumulator loop of `batch_asins`: `current_batch` and
`current_length` are the batch under construction and its space-joined
length.  For each ASIN, `additional = len(asin) + (1 if current_batch
else 0)`; if `current_length + additional > char_limit`, the current batch
is flushed (when non-empty) and a new batch starts with this ASIN; else
the ASIN joins the current batch.  The last batch is flushed at the end
when non-empty. -/
def batchLoop (char_limit : Nat) :
    List String → List String → Nat → List (List String)
  | [], current_batch, _ =>
    if current_batch.isEmpty then [] else [current_batch]
  | asin :: rest, current_batch, current_length =>
    let additional := asin.length + (if current_batch.isEmpty then 0 else 1)
    if char_limit < current_length + additional then
      (if current_batch.isEmpty then [] else [current_batch]) ++
        batchLoop char_limit rest [asin] asin.length
    else
      batchLoop char_limit rest (current_batch ++ [asin])
        (current_length + additional)

/-- `batch_asins(asin_list, char_limit=200)`: empty input returns `[]`,
otherwise the accumulator loop starting from an empty batch. -/
def batch_asins (asin_list : List String) (char_limit : Nat) :
    List (List String) :=
  if asin_list.isEmpty then [] else batchLoop char_limit asin_list [] 0

lemma joinedLen_nil : joinedLen [] = 0 := rfl

lemma joinedLen_singleton (a : String) : joinedLen [a] = a.length := by
  simp [joinedLen]

lemma joinedLen_append_singleton (c : String) (cs : List String) (a : String) :
    joinedLen ((c :: cs) ++ [a]) = joinedLen (c :: cs) + (a.length + 1) := by
  simp [joinedLen, List.sum_append]
  omega

/-- Invariant of the `batch_asins` accumulator: if every remaining ASIN
fits `char_limit` on its own and the batch under construction fits, then
every emitted batch is non-empty and fits, and the emitted batches
concatenate (in order) to the batch under construction followed by the
remaining ASINs. -/
lemma batchLoop_spec (char_limit : Nat) :
    ∀ (rest current : List String),
      (∀ a ∈ rest, a.length ≤ char_limit) →
      joinedLen current ≤ char_limit →
      (∀ b ∈ batchLoop char_limit rest current (joinedLen current),
          b ≠ [] ∧ joinedLen b ≤ char_limit) ∧
      (batchLoop char_limit rest current (joinedLen current)).flatten =
        current ++ rest := by
  intro rest
  induction rest with
  | nil =>
    intro current _ hcur
    cases current with
    | nil =>
      exact ⟨fun b hb => absurd hb (List.not_mem_nil b), rfl⟩
    | cons c cs =>
      refine ⟨?_, by simp [batchLoop]⟩
      intro b hb
      simp only [batchLoop, List.isEmpty_cons, if_false, Bool.false_eq_true,
        List.mem_singleton] at hb
      subst hb
      exact ⟨by simp, hcur⟩
  | cons a rest ih =>
    intro current hall hcur
    have ha : a.length ≤ char_limit := hall a (List.mem_cons_self a rest)
    have hall' : ∀ x ∈ rest, x.length ≤ char_limit :=
      fun x hx => hall x (List.mem_cons_of_mem a hx)
    cases current with
    | nil =>
      -- empty accumulator: `additional = a.length`, no overflow possible
      have hrec := ih [a] hall' (by rw [joinedLen_singleton]; exact ha)
      rw [joinedLen_singleton] at hrec
      have hfit : ¬ char_limit < 0 + (a.length + 0) := by omega
      have heq : batchLoop char_limit (a :: rest) [] (joinedLen []) =
          batchLoop char_limit rest [a] a.length := by
        simp [batchLoop, joinedLen_nil, hfit]
      rw [heq]
      exact ⟨hrec.1, by rw [hrec.2]; simp⟩
    | cons c cs =>
      by_cases hover : char_limit < joinedLen (c :: cs) + (a.length + 1)
      · -- overflow: flush `c :: cs`, start a new batch with `a`
        have hrec := ih [a] hall' (by rw [joinedLen_singleton]; exact ha)
        rw [joinedLen_singleton] at hrec
        have heq : batchLoop char_limit (a :: rest) (c :: cs) (joinedLen (c :: cs)) =
            [c :: cs] ++ batchLoop char_limit rest [a] a.length := by
          simp only [batchLoop, List.isEmpty_cons]
          rw [if_pos (by simpa using hover)]
          norm_num
        rw [heq]
        constructor
        · intro b hb
          rw [List.mem_append] at hb
          rcases hb with hb | hb
          · simp only [List.mem_singleton] at hb
            subst hb
            exact ⟨by simp, hcur⟩
          · exact hrec.1 b hb
        · rw [List.flatten_append, hrec.2]
          simp
      · -- fit: `a` joins the current batch
        have hfits : joinedLen ((c :: cs) ++ [a]) ≤ char_limit := by
          rw [joinedLen_append_singleton]
          omega
        have hrec := ih ((c :: cs) ++ [a]) hall' hfits
        rw [joinedLen_append_singleton] at hrec
        have heq : batchLoop char_limit (a :: rest) (c :: cs) (joinedLen (c :: cs)) =
            batchLoop char_limit rest ((c :: cs) ++ [a])
              (joinedLen (c :: cs) + (a.length + 1)) := by
          simp only [batchLoop, List.isEmpty_cons]
          rw [if_neg (by simpa using hover)]
          norm_num
        rw [heq]
        refine ⟨hrec.1, ?_⟩
        rw [hrec.2]
        simp

/-- **C10.** For every ASIN list in which each ASIN is at most `char_limit`
characters long, `batch_asins` returns only non-empty batches whose
space-joined string is at most `char_limit` characters, and the
concatenation of the batches is exactly the input list, in order — no ASIN
is dropped, duplicated, or reordered. -/
theorem batch_asins_partition (asin_list : List String) (char_limit : Nat)
    (h : ∀ a ∈ asin_list, a.length ≤ char_limit) :
    (∀ b ∈ batch_asins asin_list char_limit,
        b ≠ [] ∧ joinedLen b ≤ char_limit) ∧
    (batch_asins asin_list char_limit).flatten = asin_list := by
  unfold batch_asins
  by_cases hemp : asin_list.isEmpty
  · have : asin_list = [] := List.isEmpty_iff.mp hemp
    subst this
    simp
  · simp only [hemp, if_false, Bool.false_eq_true]
    have hspec := batchLoop_spec char_limit asin_list [] h
      (by rw [joinedLen_nil]; exact Nat.zero_le _)
    rw [joinedLen_nil] at hspec
    simpa using hspec

/-- Witness for C10 at `char_limit = 9` on `["AAAA", "BBBB", "CC"]`
(batches `[["AAAA", "BBBB"], ["CC"]]`). -/
theorem batch_asins_partition_witness :
    (∀ b ∈ batch_asins ["AAAA", "BBBB", "CC"] 9,
        b ≠ [] ∧ joinedLen b ≤ 9) ∧
    (batch_asins ["AAAA", "BBBB", "CC"] 9).flatten = ["AAAA", "BBBB", "CC"] :=
  batch_asins_partition ["AAAA", "BBBB", "CC"] 9 (by decide)

end SpAPI
